import Mathlib

/-!
Verification development for the mcp-inspector repository.

The definitions below are shallow embeddings of the functions of the
repository that the verified properties talk about:

* the `_meta` merging performed by `callTool` in `client/src/App.tsx`
  (general metadata, an injected `progressToken`, tool-specific metadata);
* the task store update performed by the `notifications/tasks/status`
  handler in `client/src/App.tsx`;
* the task poll loop inside `callTool` in `client/src/App.tsx`
  (`tasks/get` polling, `tasks/result` fetching, synthesized error
  results, the surrounding task/direct-result dispatch);
* `filterReservedMetadata` of `client/src/App.tsx` together with the key
  predicates of `client/src/utils/metaUtils.ts`;
* `cleanParams` and `normalizeUnionType` of
  `client/src/utils/paramUtils.ts` / `client/src/utils/schemaUtils.ts`;
* the CLI `--header` parser and the OAuth state machine step function,
  which are not part of the sources at hand and are therefore modelled
  from the specification (their doc comments say so explicitly).

JavaScript objects are embedded as association lists in insertion
order; an object-spread assignment updates an existing key in place and
appends a fresh key at the end, which is what `jsInsert` does.
-/

namespace Inspector

/-- Assignment `obj[k] = v` on a JavaScript object embedded as an
association list in insertion order: an existing key keeps its position
and gets the new value, a fresh key is appended at the end. -/
def jsInsert {α : Type} (obj : List (String × α)) (k : String) (v : α) :
    List (String × α) :=
  if obj.any (fun p => p.1 == k) then
    obj.map (fun p => if p.1 == k then (k, v) else p)
  else
    obj ++ [(k, v)]

/-- Folding `jsInsert` over a list of entries: the effect of spreading
those entries into the object `base`, left to right. -/
def jsSpread {α : Type} (base : List (String × α)) (entries : List (String × α)) :
    List (String × α) :=
  entries.foldl (fun acc kv => jsInsert acc kv.1 kv.2) base

/-- A metadata value as it appears in a `_meta` object: the examples in
the spec use numbers, the UI state stores strings, and `callTool`
additionally injects the numeric progress token. -/
inductive MetaValue : Type
  | num (n : Nat)
  | str (s : String)
deriving DecidableEq, Repr

/-- Embedding of the `_meta` merge of `callTool` (client/src/App.tsx):
`{ ...metadata, progressToken: progressTokenRef.current++, ...toolMetadata }`.
General metadata is spread first, then the `progressToken` entry, then
the tool-specific metadata, later writes winning on key collision. -/
def mergedMetadata (metadata toolMetadata : List (String × MetaValue))
    (progressToken : Nat) : List (String × MetaValue) :=
  jsSpread (jsSpread (jsSpread [] metadata) [("progressToken", .num progressToken)])
    toolMetadata

end Inspector

namespace Inspector

/-- Characters removed by JavaScript `String.prototype.trim` (the ASCII
whitespace actually exercised by the repository's inputs). -/
def jsWs (c : Char) : Bool :=
  c == ' ' || c == '\t' || c == '\n' || c == '\r'

/-- `trim` on a character list: drop leading and trailing whitespace. -/
def trimL (cs : List Char) : List Char :=
  ((cs.dropWhile jsWs).reverse.dropWhile jsWs).reverse

/-- Modelled from the spec: the CLI `--header "Name: Value"` parser is
not among the sources at hand (only its tests are), so it is modelled
from the spec's words — an entry is split at the first colon, name and
value are trimmed, and an entry lacking a colon, a non-empty name or a
non-empty value is rejected; colons after the first are preserved in
the value. -/
def parseHeaderCore (cs : List Char) : Option (List Char × List Char) :=
  match cs.findIdx? (fun c => c == ':') with
  | none => none
  | some i =>
    let name := trimL (cs.take i)
    let value := trimL (cs.drop (i + 1))
    if name.isEmpty || value.isEmpty then none else some (name, value)

/-- Modelled from the spec: string-level wrapper of `parseHeaderCore`. -/
def parseHeader (s : String) : Option (String × String) :=
  (parseHeaderCore s.toList).map (fun p => (String.mk p.1, String.mk p.2))

end Inspector

namespace Inspector

/-- A JavaScript value as far as `cleanParams`
(client/src/utils/paramUtils.ts) distinguishes values: it compares
against `undefined`, `null` and the empty string and passes everything
else through unchanged. -/
inductive JSValue : Type
  | undef
  | null
  | str (s : String)
  | num (n : Int)
  | bool (b : Bool)
deriving DecidableEq, Repr

/-- The fragment of a JSON schema that `cleanParams` reads: its
`required` array, which may be absent (`schema.required || []`). -/
structure ParamSchema where
  required : Option (List String) := none
deriving DecidableEq, Repr

/-- Embedding of `cleanParams` (client/src/utils/paramUtils.ts): build a
fresh object, keep every required key with its original value, and keep
an optional key only when its value is neither `undefined` nor `""` nor
`null`. -/
def cleanParams (params : List (String × JSValue)) (schema : ParamSchema) :
    List (String × JSValue) :=
  let required := schema.required.getD []
  params.foldl
    (fun cleaned kv =>
      if required.contains kv.1 then
        jsInsert cleaned kv.1 kv.2
      else if kv.2 != .undef && kv.2 != .str "" && kv.2 != .null then
        jsInsert cleaned kv.1 kv.2
      else
        cleaned)
    []

end Inspector

namespace Inspector

/-- ASCII letter, matching `[a-z]` under the `/i` flag. -/
def asciiAlpha (c : Char) : Bool :=
  ('a' ≤ c && c ≤ 'z') || ('A' ≤ c && c ≤ 'Z')

/-- ASCII digit, matching `\d`. -/
def asciiDigit (c : Char) : Bool :=
  '0' ≤ c && c ≤ '9'

/-- ASCII letter or digit. -/
def asciiAlnum (c : Char) : Bool :=
  asciiAlpha c || asciiDigit c

/-- Embedding of `META_PREFIX_LABEL_REGEX` of
client/src/utils/metaUtils.ts, the anchored case-insensitive regex
matching a label: a letter, optionally followed by letters, digits or
hyphens and ending in a letter or digit. -/
def labelMatch (cs : List Char) : Bool :=
  match cs with
  | [] => false
  | [c] => asciiAlpha c
  | c :: rest =>
    asciiAlpha c && asciiAlnum (rest.getLastD ' ') &&
      rest.dropLast.all (fun x => asciiAlnum x || x == '-')

/-- Embedding of `META_NAME_REGEX` of client/src/utils/metaUtils.ts:
an alphanumeric, optionally followed by alphanumerics, dots,
underscores or hyphens and ending in an alphanumeric. -/
def nameMatch (cs : List Char) : Bool :=
  match cs with
  | [] => false
  | [c] => asciiAlnum c
  | c :: rest =>
    asciiAlnum c && asciiAlnum (rest.getLastD ' ') &&
      rest.dropLast.all (fun x => asciiAlnum x || x == '.' || x == '_' || x == '-')

/-- Index of the first occurrence of `pat` inside `cs`
(JavaScript `indexOf` on strings, for a non-empty pattern). -/
def firstIdxOfSub (pat : List Char) : List Char → Option Nat
  | [] => none
  | c :: rest =>
    if pat.isPrefixOf (c :: rest) then some 0
    else (firstIdxOfSub pat rest).map (· + 1)

/-- Embedding of `getPrefixSegment` (client/src/utils/metaUtils.ts):
trim the key; the segment before the first slash, or `none` when the
key has no slash. -/
def getPrefixSegment (key : List Char) : Option (List Char) :=
  let trimmedKey := trimL key
  match trimmedKey.findIdx? (fun c => c == '/') with
  | none => none
  | some i => some (trimmedKey.take i)

/-- Embedding of `normalizeSegment` (client/src/utils/metaUtils.ts):
trim and lowercase, strip a `scheme://` head, cut at the first of
`?`, `#`, `:`, and return `none` for an empty result. -/
def normalizeSegment (segment : List Char) : Option (List Char) :=
  if segment.isEmpty then none
  else
    let normalized := (trimL segment).map Char.toLower
    if normalized.isEmpty then none
    else
      let afterScheme :=
        match firstIdxOfSub [':', '/', '/'] normalized with
        | some i => normalized.drop (i + 3)
        | none => normalized
      let stops := ['?', '#', ':']
      let endIdx := stops.foldl
        (fun acc c =>
          match afterScheme.findIdx? (fun x => x == c) with
          | some i => if i < acc then i else acc
          | none => acc)
        afterScheme.length
      let res := afterScheme.take endIdx
      if res.isEmpty then none else some res

/-- Embedding of `splitLabels` (client/src/utils/metaUtils.ts):
normalize the segment, split on dots, and demand that every label is
non-empty and matches the label regex. -/
def splitLabels (segment : List Char) : Option (List (List Char)) :=
  match normalizeSegment segment with
  | none => none
  | some normalized =>
    let labels := normalized.splitOn '.'
    if labels.isEmpty || labels.any (fun l => l.isEmpty || !labelMatch l) then
      none
    else
      some labels

/-- The reserved namespace labels of client/src/utils/metaUtils.ts. -/
def reservedNamespaceLabels : List (List Char) :=
  ["modelcontextprotocol".toList, "mcp".toList]

/-- Embedding of `isReservedMetaKey` (client/src/utils/metaUtils.ts):
the key's prefix segment (or the whole trimmed key when it has no
slash) splits into at least two labels, and some label other than the
last is a reserved namespace label followed by a regex-valid label. -/
def isReservedMetaKey (key : List Char) : Bool :=
  let trimmedKey := trimL key
  if trimmedKey.isEmpty then false
  else
    let candidateSegment := (getPrefixSegment trimmedKey).getD trimmedKey
    match splitLabels candidateSegment with
    | none => false
    | some labels =>
      if labels.length < 2 then false
      else
        (labels.zip labels.tail).any
          (fun p => reservedNamespaceLabels.contains p.1 && labelMatch p.2)

/-- Embedding of `hasValidMetaPrefix` (client/src/utils/metaUtils.ts),
renamed: the key either has no prefix segment, or its prefix segment
splits into valid labels. -/
def validMetaPrefixKey (key : List Char) : Bool :=
  match getPrefixSegment key with
  | none => true
  | some seg => (splitLabels seg).isSome

/-- Embedding of `extractMetaName` (client/src/utils/metaUtils.ts):
trim the key and take the part after the last slash (the whole key when
no slash is present). -/
def extractMetaName (key : List Char) : List Char :=
  let trimmedKey := trimL key
  if trimmedKey.isEmpty then []
  else
    match (trimmedKey.reverse.findIdx? (fun c => c == '/')) with
    | none => trimmedKey
    | some revIdx => trimmedKey.drop (trimmedKey.length - revIdx)

/-- Embedding of `hasValidMetaName` (client/src/utils/metaUtils.ts):
the extracted name is non-empty and matches the name regex. -/
def hasValidMetaName (key : List Char) : Bool :=
  let name := extractMetaName key
  if name.isEmpty then false else nameMatch name

/-- String-level wrapper of `isReservedMetaKey`. -/
def isReservedMetaKeyS (key : String) : Bool :=
  isReservedMetaKey key.toList

/-- String-level wrapper of `validMetaPrefixKey`. -/
def validMetaPrefixKeyS (key : String) : Bool :=
  validMetaPrefixKey key.toList

/-- String-level wrapper of `hasValidMetaName`. -/
def hasValidMetaNameS (key : String) : Bool :=
  hasValidMetaName key.toList

/-- Embedding of `filterReservedMetadata` (client/src/App.tsx): reduce
over the entries, keeping a key only when it is not reserved, has a
valid prefix and has a valid name; kept keys retain their value. -/
def filterReservedMetadata (metadata : List (String × String)) :
    List (String × String) :=
  metadata.foldl
    (fun acc kv =>
      if !isReservedMetaKeyS kv.1 && validMetaPrefixKeyS kv.1 &&
          hasValidMetaNameS kv.1 then
        jsInsert acc kv.1 kv.2
      else
        acc)
    []

end Inspector

namespace Inspector

/-- The slice of a Task record that the client reads: its id, status
string and optional status message (client/src/App.tsx). -/
structure TaskRec where
  taskId : String
  status : String
  statusMessage : Option String := none
deriving DecidableEq, Repr

/-- Embedding of the `notifications/tasks/status` branch of
`onNotification` (client/src/App.tsx): when some stored task has the
pushed `taskId`, every stored task with that id is replaced by the
pushed snapshot; otherwise the snapshot is prepended. -/
def tasksStatusUpdate (prev : List TaskRec) (task : TaskRec) : List TaskRec :=
  if prev.any (fun t => t.taskId == task.taskId) then
    prev.map (fun t => if t.taskId == task.taskId then task else t)
  else
    task :: prev

/-- The terminal-status test of the poll loop in `callTool`
(client/src/App.tsx): `completed`, `failed` or `cancelled`. -/
def isTerminalStatus (s : String) : Bool :=
  s == "completed" || s == "failed" || s == "cancelled"

/-- A tool call result as far as the claims read it: its text content
blocks and its `isError` flag. -/
structure ToolResult where
  content : List String
  isError : Bool := false
deriving DecidableEq, Repr

/-- The error-shaped result the poll loop's catch block produces
(client/src/App.tsx): a single text block carrying the error message,
marked `isError`. -/
def pollErrorResult (e : String) : ToolResult :=
  { content := ["Error polling task status: " ++ e], isError := true }

/-- The `statusMessage || "No additional information"` fallback of the
synthesized failed/cancelled result (JavaScript `||` treats the empty
string as falsy). -/
def statusMessageOrDefault (m : Option String) : String :=
  match m with
  | some s => if s == "" then "No additional information" else s
  | none => "No additional information"

/-- The text of the result synthesized for a `failed`/`cancelled` task
(client/src/App.tsx): the status name followed by the status message or
its fallback. -/
def taskTerminalMessage (s : String) (m : Option String) : String :=
  "Task " ++ s ++ ": " ++ statusMessageOrDefault m

/-- One server reply to a `tasks/get` poll: either a status snapshot or
a request failure (the promise rejecting). -/
inductive PollReply : Type
  | status (s : String) (statusMessage : Option String)
  | failure (e : String)
deriving DecidableEq, Repr

/-- The server's reply to the follow-up `tasks/result` request: the
final payload, or a request failure. -/
inductive FetchReply : Type
  | fetched (r : ToolResult)
  | failure (e : String)
deriving DecidableEq, Repr

/-- What a run of the poll loop produced: the final tool result
(`none` when the supplied replies ran out with the loop still going),
whether a `tasks/result` request was issued, and how many `tasks/get`
polls were consumed. -/
structure PollOutcome where
  final : Option ToolResult
  resultFetched : Bool
  polls : Nat
deriving DecidableEq, Repr

/-- Embedding of the poll loop inside `callTool` (client/src/App.tsx),
driven by the list of server replies to successive `tasks/get` polls:
a request failure is caught, sets an error-shaped result and stops; a
terminal `completed` status triggers the `tasks/result` fetch whose
payload (or caught failure) becomes the result; `failed`/`cancelled`
synthesize an error-shaped result carrying the status message; any
other status continues the loop. -/
def pollTaskLoop : List PollReply → FetchReply → PollOutcome
  | [], _ => { final := none, resultFetched := false, polls := 0 }
  | .failure e :: _, _ =>
    { final := some (pollErrorResult e), resultFetched := false, polls := 1 }
  | .status s m :: rest, fetch =>
    if isTerminalStatus s then
      if s == "completed" then
        match fetch with
        | .fetched r => { final := some r, resultFetched := true, polls := 1 }
        | .failure e =>
          { final := some (pollErrorResult e), resultFetched := true, polls := 1 }
      else
        { final := some { content := [taskTerminalMessage s m], isError := true },
          resultFetched := false, polls := 1 }
    else
      let o := pollTaskLoop rest fetch
      { final := o.final, resultFetched := o.resultFetched, polls := o.polls + 1 }

/-- The task reference a task-augmented `tools/call` response may carry:
`{ task: { taskId, status, pollInterval } }` (client/src/App.tsx). -/
structure TaskRef where
  taskId : String
  pollInterval : Nat
deriving DecidableEq, Repr

/-- A `tools/call` response as `callTool` dispatches on it: an optional
task reference, and the response itself viewed as a direct tool
result. -/
structure CallResponse where
  task : Option TaskRef
  direct : ToolResult
deriving DecidableEq, Repr

/-- Embedding of the `isTaskResult` type guard of `callTool`
(client/src/App.tsx): the response carries a `task` object with a
`taskId`. -/
def isTaskResult (res : CallResponse) : Bool :=
  res.task.isSome

/-- What `callTool` did after receiving the immediate response: the
final tool result, whether the poll loop was entered (task registered,
polling state set), whether `tasks/result` was issued, and how many
polls ran. -/
structure CallOutcome where
  final : Option ToolResult
  enteredPollLoop : Bool
  resultFetched : Bool
  polls : Nat
deriving DecidableEq, Repr

/-- Embedding of the dispatch after the immediate `tools/call` response
in `callTool` (client/src/App.tsx): only when the call was issued with
`runAsTask` and the response carries a task reference does the poll
loop run; otherwise the response is delivered directly as the tool
result with no polling. -/
def callToolDispatch (runAsTask : Bool) (response : CallResponse)
    (replies : List PollReply) (fetch : FetchReply) : CallOutcome :=
  if runAsTask && isTaskResult response then
    let o := pollTaskLoop replies fetch
    { final := o.final, enteredPollLoop := true,
      resultFetched := o.resultFetched, polls := o.polls }
  else
    { final := some response.direct, enteredPollLoop := false,
      resultFetched := false, polls := 0 }

end Inspector

namespace Inspector

/-- The named steps of the OAuth flow state
(client/src/lib/auth-types.ts as described by the spec's
`OAuthFlowState`): `idle → authorization_redirect → authorization_code
→ token_request → complete`, with an absorbing `error` state. -/
inductive OAuthStep : Type
  | idle
  | authorization_redirect
  | authorization_code
  | token_request
  | complete
  | error
deriving DecidableEq, Repr

/-- Modelled from the spec: `executeStep` of
client/src/lib/oauth-state-machine.ts is not among the sources at hand
(only its caller `onOAuthDebugConnect` in client/src/App.tsx is), so
its success-path transition table is modelled from the spec's words:
each step advances to the next step of
`idle → authorization_redirect → authorization_code → token_request →
complete`, terminal `complete` and absorbing `error` do not move. -/
def executeStep : OAuthStep → OAuthStep
  | .idle => .authorization_redirect
  | .authorization_redirect => .authorization_code
  | .authorization_code => .token_request
  | .token_request => .complete
  | .complete => .complete
  | .error => .error

/-- The step `onOAuthDebugConnect` (client/src/App.tsx) seeds when it
resumes from a restored state with a fresh authorization code:
`oauthStep: "token_request"`. -/
def resumeSeedStep : OAuthStep :=
  .token_request

/-- The guard of the resume loop in `onOAuthDebugConnect`
(client/src/App.tsx): keep stepping while the step is neither
`complete` nor `authorization_code`. -/
def resumeLoopGuard (s : OAuthStep) : Bool :=
  !(s == .complete) && !(s == .authorization_code)

/-- The resume loop of `onOAuthDebugConnect` with explicit fuel: the
step reached after at most `fuel` iterations of `executeStep` under the
loop guard. -/
def resumeLoopFinal : Nat → OAuthStep → OAuthStep
  | 0, s => s
  | fuel + 1, s =>
    if resumeLoopGuard s then resumeLoopFinal fuel (executeStep s) else s

/-- The steps at which the resume loop actually invoked `executeStep`
(the visited non-exit steps), with explicit fuel. -/
def resumeLoopVisited : Nat → OAuthStep → List OAuthStep
  | 0, _ => []
  | fuel + 1, s =>
    if resumeLoopGuard s then s :: resumeLoopVisited fuel (executeStep s) else []

end Inspector

namespace Inspector

/-- The value of a JSON schema `type` field as `normalizeUnionType`
inspects it: a scalar type name or an array of type names. -/
inductive JType : Type
  | scalar (s : String)
  | arr (ts : List String)
deriving DecidableEq, Repr

/-- The slice of a JSON schema value that `normalizeUnionType`
(client/src/utils/schemaUtils.ts) reads and writes: the `type` field,
the `type` fields of the `anyOf` members, the `nullable` flag; all
remaining properties ride along unchanged in `rest`. -/
structure JsonSchemaVal where
  type : Option JType := none
  anyOf : Option (List (Option JType)) := none
  nullable : Option Bool := none
  rest : List (String × String) := []
deriving DecidableEq, Repr

/-- The `anyOf` guard of `normalizeUnionType`: `anyOf` is present, has
exactly two members, one with type `s` and one with type `null`. -/
def anyOfPairMatch (schema : JsonSchemaVal) (s : String) : Bool :=
  match schema.anyOf with
  | some l =>
    l.length == 2 && l.any (fun t => t == some (.scalar s)) &&
      l.any (fun t => t == some (.scalar "null"))
  | none => false

/-- The array-`type` guard of `normalizeUnionType`: the `type` field is
an array of exactly two names containing `s` and `null`. -/
def typePairMatch (schema : JsonSchemaVal) (s : String) : Bool :=
  match schema.type with
  | some (.arr ts) => ts.length == 2 && ts.contains s && ts.contains "null"
  | _ => false

/-- Embedding of `normalizeUnionType` (client/src/utils/schemaUtils.ts):
an `anyOf` of exactly a scalar type and `null` collapses to that scalar
type with `anyOf` cleared and `nullable` set; a two-element array
`type` containing a scalar name and `null` collapses to that scalar
type with `nullable` set; anything else is returned unchanged. -/
def normalizeUnionType (schema : JsonSchemaVal) : JsonSchemaVal :=
  if anyOfPairMatch schema "string" then
    { schema with type := some (.scalar "string"), anyOf := none, nullable := some true }
  else if anyOfPairMatch schema "boolean" then
    { schema with type := some (.scalar "boolean"), anyOf := none, nullable := some true }
  else if anyOfPairMatch schema "number" then
    { schema with type := some (.scalar "number"), anyOf := none, nullable := some true }
  else if anyOfPairMatch schema "integer" then
    { schema with type := some (.scalar "integer"), anyOf := none, nullable := some true }
  else if anyOfPairMatch schema "array" then
    { schema with type := some (.scalar "array"), anyOf := none, nullable := some true }
  else if typePairMatch schema "string" then
    { schema with type := some (.scalar "string"), nullable := some true }
  else if typePairMatch schema "boolean" then
    { schema with type := some (.scalar "boolean"), nullable := some true }
  else if typePairMatch schema "number" then
    { schema with type := some (.scalar "number"), nullable := some true }
  else if typePairMatch schema "integer" then
    { schema with type := some (.scalar "integer"), nullable := some true }
  else
    schema

end Inspector

namespace Inspector

/-- C7: the CLI `--header` parser rejects `"InvalidHeader"` (no colon),
accepts `"X-Time: 2023:12:25:10:30:45"` splitting only at the first
colon and preserving later colons in the value, accepts
`"  X-Header  :  value with spaces  "` with name and value trimmed, and
rejects entries with an empty name or an empty value. -/
theorem cli_header_validation :
    parseHeader "InvalidHeader" = none ∧
    parseHeader "X-Time: 2023:12:25:10:30:45" =
      some ("X-Time", "2023:12:25:10:30:45") ∧
    parseHeader "  X-Header  :  value with spaces  " =
      some ("X-Header", "value with spaces") ∧
    parseHeader ": value" = none ∧
    parseHeader "Header:" = none := by
  refine ⟨by decide, by decide, by decide, by decide, by decide⟩

/-- C1 counterexample: with general metadata `{a:1, b:2}` and
tool-specific metadata `{b:3}`, the merged `_meta` object built by
`callTool` is `{a:1, b:3, progressToken:0}` (for the first call), so it
is not exactly `{a:1, b:3}`: the injected `progressToken` key is also
present. -/
theorem metadata_merge_extra_key :
    mergedMetadata [("a", .num 1), ("b", .num 2)] [("b", .num 3)] 0 =
      [("a", .num 1), ("b", .num 3), ("progressToken", .num 0)] ∧
    ("progressToken", MetaValue.num 0) ∈
      mergedMetadata [("a", .num 1), ("b", .num 2)] [("b", .num 3)] 0 ∧
    mergedMetadata [("a", .num 1), ("b", .num 2)] [("b", .num 3)] 0 ≠
      [("a", .num 1), ("b", .num 3)] := by
  refine ⟨by decide, by decide, by decide⟩

/-- C1 (amended): with general metadata `{a:1, b:2}` and tool-specific
metadata `{b:3}`, the merged `_meta` sent with the tool call is
`{a:1, b:3, progressToken:n}` where `n` is the current progress-token
counter: general keys are preserved, tool-specific values win on key
collision, and the only further key is the injected `progressToken`. -/
theorem metadata_merge_precedence (n : Nat) :
    mergedMetadata [("a", .num 1), ("b", .num 2)] [("b", .num 3)] n =
      [("a", .num 1), ("b", .num 3), ("progressToken", .num n)] := rfl

/-- C2 counterexample: a stored task with terminal status `completed`
is replaced by a subsequent `notifications/tasks/status` push carrying
the non-terminal status `working` for the same `taskId` — the stored
status does not stay terminal. -/
theorem task_status_push_reverts_terminal :
    tasksStatusUpdate [{ taskId := "t1", status := "completed" }]
        { taskId := "t1", status := "working" } =
      [{ taskId := "t1", status := "working" }] ∧
    isTerminalStatus "completed" = true ∧
    isTerminalStatus "working" = false := by
  refine ⟨by decide, by decide, by decide⟩

/-- C2 (amended): processing a `notifications/tasks/status` notification
stores the pushed snapshot unconditionally (last-writer-wins): after the
update every stored task whose `taskId` matches the push equals the
pushed snapshot, even when the previously stored status was terminal
and the pushed status is non-terminal. -/
theorem task_status_push_last_writer_wins (prev : List TaskRec) (task : TaskRec) :
    ∀ t ∈ tasksStatusUpdate prev task, t.taskId = task.taskId → t = task := by
  intro t ht hid
  unfold tasksStatusUpdate at ht
  by_cases h : prev.any (fun u => u.taskId == task.taskId)
  · rw [if_pos h] at ht
    obtain ⟨u, hu, he⟩ := List.mem_map.1 ht
    by_cases h2 : u.taskId == task.taskId
    · rw [if_pos h2] at he
      exact he.symm
    · rw [if_neg h2] at he
      subst he
      exact absurd hid (by simpa using h2)
  · rw [if_neg h] at ht
    rcases List.mem_cons.1 ht with rfl | hmem
    · rfl
    · exact absurd h (by
        simp only [List.any_eq_true, not_not]
        exact ⟨t, hmem, by simpa using hid⟩)

/-- C2 witness: applying the last-writer-wins theorem at a concrete
store holding a completed task and a concrete `working` push. -/
theorem task_status_push_last_writer_wins_witness :
    ({ taskId := "t1", status := "working" } : TaskRec) =
      { taskId := "t1", status := "working" } :=
  task_status_push_last_writer_wins
    [{ taskId := "t1", status := "completed" }]
    { taskId := "t1", status := "working" }
    { taskId := "t1", status := "working" } (by decide) (by decide)

/-- C8: resuming the OAuth flow from a persisted `authorization_code`
state with a fresh authorization code seeds the step `token_request`;
the `executeStep` loop then terminates in `complete` (for any positive
fuel), having invoked `executeStep` exactly at `token_request` and in
particular never re-entering the `authorization_redirect` step. -/
theorem oauth_resume_completes (n : Nat) :
    resumeLoopFinal (n + 1) resumeSeedStep = .complete ∧
    resumeLoopVisited (n + 1) resumeSeedStep = [.token_request] ∧
    OAuthStep.authorization_redirect ∉ resumeLoopVisited (n + 1) resumeSeedStep := by
  have hfin : ∀ m, resumeLoopFinal m .complete = .complete := by
    intro m
    cases m <;> simp [resumeLoopFinal, resumeLoopGuard]
  have hvis : ∀ m, resumeLoopVisited m .complete = [] := by
    intro m
    cases m <;> simp [resumeLoopVisited, resumeLoopGuard]
  refine ⟨?_, ?_, ?_⟩
  · simp [resumeLoopFinal, resumeLoopGuard, executeStep, resumeSeedStep, hfin]
  · simp [resumeLoopVisited, resumeLoopGuard, executeStep, resumeSeedStep, hvis]
  · simp [resumeLoopVisited, resumeLoopGuard, executeStep, resumeSeedStep, hvis]

end Inspector

namespace Inspector

/-- The `anyOf` guard only reads the `anyOf` field. -/
theorem anyOfPairMatch_congr {v w : JsonSchemaVal} (t : String)
    (h : v.anyOf = w.anyOf) : anyOfPairMatch v t = anyOfPairMatch w t := by
  unfold anyOfPairMatch
  rw [h]

/-- No `anyOf` guard fires when the `anyOf` field is absent. -/
theorem anyOfPairMatch_none {v : JsonSchemaVal} (t : String)
    (h : v.anyOf = none) : anyOfPairMatch v t = false := by
  unfold anyOfPairMatch
  rw [h]

/-- No array-`type` guard fires when the `type` field is a scalar. -/
theorem typePairMatch_scalar {v : JsonSchemaVal} (t u : String)
    (h : v.type = some (.scalar u)) : typePairMatch v t = false := by
  unfold typePairMatch
  rw [h]

/-- A schema on which no rewrite guard fires is a fixpoint of
`normalizeUnionType`. -/
theorem normalizeUnionType_eq_self (v : JsonSchemaVal)
    (h1 : anyOfPairMatch v "string" = false)
    (h2 : anyOfPairMatch v "boolean" = false)
    (h3 : anyOfPairMatch v "number" = false)
    (h4 : anyOfPairMatch v "integer" = false)
    (h5 : anyOfPairMatch v "array" = false)
    (h6 : typePairMatch v "string" = false)
    (h7 : typePairMatch v "boolean" = false)
    (h8 : typePairMatch v "number" = false)
    (h9 : typePairMatch v "integer" = false) :
    normalizeUnionType v = v := by
  unfold normalizeUnionType
  rw [h1, h2, h3, h4, h5, h6, h7, h8, h9]
  simp

/-- C10: `normalizeUnionType` is idempotent — a normalized schema has
its `anyOf` cleared and a scalar `type`, so no rewrite branch applies
on a second pass. -/
theorem normalize_union_type_idempotent (schema : JsonSchemaVal) :
    normalizeUnionType (normalizeUnionType schema) = normalizeUnionType schema := by
  have fixA : ∀ v : JsonSchemaVal, v.anyOf = none →
      (∃ u, v.type = some (.scalar u)) → normalizeUnionType v = v := by
    intro v hn hu
    obtain ⟨u, hu⟩ := hu
    exact normalizeUnionType_eq_self v
      (anyOfPairMatch_none _ hn) (anyOfPairMatch_none _ hn)
      (anyOfPairMatch_none _ hn) (anyOfPairMatch_none _ hn)
      (anyOfPairMatch_none _ hn)
      (typePairMatch_scalar _ u hu) (typePairMatch_scalar _ u hu)
      (typePairMatch_scalar _ u hu) (typePairMatch_scalar _ u hu)
  cases g1 : anyOfPairMatch schema "string" with
  | true =>
    have e : normalizeUnionType schema =
        { schema with type := some (.scalar "string"), anyOf := none, nullable := some true } := by
      unfold normalizeUnionType
      rw [g1]
      simp
    rw [e]
    exact fixA _ rfl ⟨"string", rfl⟩
  | false =>
  cases g2 : anyOfPairMatch schema "boolean" with
  | true =>
    have e : normalizeUnionType schema =
        { schema with type := some (.scalar "boolean"), anyOf := none, nullable := some true } := by
      unfold normalizeUnionType
      rw [g1, g2]
      simp
    rw [e]
    exact fixA _ rfl ⟨"boolean", rfl⟩
  | false =>
  cases g3 : anyOfPairMatch schema "number" with
  | true =>
    have e : normalizeUnionType schema =
        { schema with type := some (.scalar "number"), anyOf := none, nullable := some true } := by
      unfold normalizeUnionType
      rw [g1, g2, g3]
      simp
    rw [e]
    exact fixA _ rfl ⟨"number", rfl⟩
  | false =>
  cases g4 : anyOfPairMatch schema "integer" with
  | true =>
    have e : normalizeUnionType schema =
        { schema with type := some (.scalar "integer"), anyOf := none, nullable := some true } := by
      unfold normalizeUnionType
      rw [g1, g2, g3, g4]
      simp
    rw [e]
    exact fixA _ rfl ⟨"integer", rfl⟩
  | false =>
  cases g5 : anyOfPairMatch schema "array" with
  | true =>
    have e : normalizeUnionType schema =
        { schema with type := some (.scalar "array"), anyOf := none, nullable := some true } := by
      unfold normalizeUnionType
      rw [g1, g2, g3, g4, g5]
      simp
    rw [e]
    exact fixA _ rfl ⟨"array", rfl⟩
  | false =>
  have fixT : ∀ u : String,
      normalizeUnionType { schema with type := some (.scalar u), nullable := some true } = { schema with type := some (.scalar u), nullable := some true } := by
    intro u
    have hc : ∀ t : String,
        anyOfPairMatch { schema with type := some (.scalar u), nullable := some true } t = anyOfPairMatch schema t :=
      fun t => anyOfPairMatch_congr t rfl
    exact normalizeUnionType_eq_self _
      ((hc "string").trans g1) ((hc "boolean").trans g2)
      ((hc "number").trans g3) ((hc "integer").trans g4)
      ((hc "array").trans g5)
      (typePairMatch_scalar _ u rfl) (typePairMatch_scalar _ u rfl)
      (typePairMatch_scalar _ u rfl) (typePairMatch_scalar _ u rfl)
  cases g6 : typePairMatch schema "string" with
  | true =>
    have e : normalizeUnionType schema =
        { schema with type := some (.scalar "string"), nullable := some true } := by
      unfold normalizeUnionType
      rw [g1, g2, g3, g4, g5, g6]
      simp
    rw [e]
    exact fixT "string"
  | false =>
  cases g7 : typePairMatch schema "boolean" with
  | true =>
    have e : normalizeUnionType schema =
        { schema with type := some (.scalar "boolean"), nullable := some true } := by
      unfold normalizeUnionType
      rw [g1, g2, g3, g4, g5, g6, g7]
      simp
    rw [e]
    exact fixT "boolean"
  | false =>
  cases g8 : typePairMatch schema "number" with
  | true =>
    have e : normalizeUnionType schema =
        { schema with type := some (.scalar "number"), nullable := some true } := by
      unfold normalizeUnionType
      rw [g1, g2, g3, g4, g5, g6, g7, g8]
      simp
    rw [e]
    exact fixT "number"
  | false =>
  cases g9 : typePairMatch schema "integer" with
  | true =>
    have e : normalizeUnionType schema =
        { schema with type := some (.scalar "integer"), nullable := some true } := by
      unfold normalizeUnionType
      rw [g1, g2, g3, g4, g5, g6, g7, g8, g9]
      simp
    rw [e]
    exact fixT "integer"
  | false =>
    have e : normalizeUnionType schema = schema := by
      unfold normalizeUnionType
      rw [g1, g2, g3, g4, g5, g6, g7, g8, g9]
      simp
    rw [e]
    exact normalizeUnionType_eq_self schema g1 g2 g3 g4 g5 g6 g7 g8 g9

end Inspector

namespace Inspector

/-- Assigning a fresh key appends it at the end of the object. -/
theorem jsInsert_of_not_mem {α : Type} (obj : List (String × α)) (k : String) (v : α)
    (h : k ∉ obj.map Prod.fst) : jsInsert obj k v = obj ++ [(k, v)] := by
  unfold jsInsert
  have hc : obj.any (fun p => p.1 == k) = false := by
    by_contra hne
    rw [Bool.not_eq_false, List.any_eq_true] at hne
    obtain ⟨p, hp, he⟩ := hne
    exact h (List.mem_map.2 ⟨p, hp, by simpa using he⟩)
  rw [hc]
  simp

/-- Folding "insert when the predicate holds" over entries with
pairwise-distinct keys is filtering: both `filterReservedMetadata` and
`cleanParams` build their output object this way. -/
theorem foldl_jsInsert_filter {α : Type} (p : String × α → Bool) :
    ∀ (m acc : List (String × α)),
      (acc.map Prod.fst ++ m.map Prod.fst).Nodup →
      m.foldl (fun acc kv => if p kv then jsInsert acc kv.1 kv.2 else acc) acc =
        acc ++ m.filter p
  | [], acc, _ => by simp
  | kv :: rest, acc, h => by
    rw [List.foldl_cons]
    have h2 : (acc.map Prod.fst ++ kv.1 :: rest.map Prod.fst).Nodup := by
      simpa using h
    have hk : kv.1 ∉ acc.map Prod.fst := by
      intro hmem
      exact (List.disjoint_of_nodup_append h2) hmem (by simp)
    by_cases hp : p kv
    · rw [if_pos hp, jsInsert_of_not_mem _ _ _ hk]
      have h' : ((acc ++ [kv]).map Prod.fst ++ rest.map Prod.fst).Nodup := by
        simpa [List.append_assoc] using h2
      rw [foldl_jsInsert_filter p rest (acc ++ [kv]) h']
      simp [List.filter_cons, hp]
    · rw [if_neg hp]
      have h' : (acc.map Prod.fst ++ rest.map Prod.fst).Nodup := by
        refine List.Nodup.sublist ?_ h2
        exact List.Sublist.append_left (List.sublist_cons_self _ _) _
      rw [foldl_jsInsert_filter p rest acc h']
      simp [List.filter_cons, hp]

/-- C6: for a metadata map with pairwise-distinct keys, the filtering
applied before metadata is merged into outgoing requests keeps exactly
the pairs whose key is not reserved, has a valid prefix and has a valid
name; every surviving key keeps its original value and every key
failing one of the three predicates is absent. -/
theorem filter_reserved_metadata_correct (metadata : List (String × String))
    (hkeys : (metadata.map Prod.fst).Nodup) (k v : String) :
    (k, v) ∈ filterReservedMetadata metadata ↔
      ((k, v) ∈ metadata ∧ isReservedMetaKeyS k = false ∧
        validMetaPrefixKeyS k = true ∧ hasValidMetaNameS k = true) := by
  have hf : filterReservedMetadata metadata =
      metadata.filter (fun kv =>
        !isReservedMetaKeyS kv.1 && validMetaPrefixKeyS kv.1 &&
          hasValidMetaNameS kv.1) := by
    unfold filterReservedMetadata
    rw [foldl_jsInsert_filter
      (fun kv => !isReservedMetaKeyS kv.1 && validMetaPrefixKeyS kv.1 &&
        hasValidMetaNameS kv.1) metadata [] (by simpa using hkeys)]
    simp
  rw [hf, List.mem_filter]
  constructor
  · rintro ⟨hm, hp⟩
    simp only [Bool.and_eq_true, Bool.not_eq_true'] at hp
    exact ⟨hm, hp.1.1, hp.1.2, hp.2⟩
  · rintro ⟨hm, h1, h2, h3⟩
    exact ⟨hm, by simp [h1, h2, h3]⟩

/-- C6 witness: a concrete metadata map holding a valid custom key, a
reserved key and a malformed key; the theorem keeps exactly the valid
pair. -/
theorem filter_reserved_metadata_correct_witness :
    ("example.com/note", "1") ∈
      filterReservedMetadata
        [("example.com/note", "1"), ("mcp.example/x", "2"), ("bad key", "3")] :=
  (filter_reserved_metadata_correct
      [("example.com/note", "1"), ("mcp.example/x", "2"), ("bad key", "3")]
      (by decide) "example.com/note" "1").mpr (by decide)

/-- C9: for a parameter map with pairwise-distinct keys, `cleanParams`
keeps a pair exactly when its key is required by the schema (even for
`undefined`, `null` or empty-string values) or its value is meaningful
(neither `undefined` nor `null` nor the empty string); kept pairs
retain their original value and nothing else appears. -/
theorem clean_params_correct (params : List (String × JSValue)) (schema : ParamSchema)
    (hkeys : (params.map Prod.fst).Nodup) (k : String) (v : JSValue) :
    (k, v) ∈ cleanParams params schema ↔
      ((k, v) ∈ params ∧
        ((schema.required.getD []).contains k = true ∨
          (v ≠ .undef ∧ v ≠ .str "" ∧ v ≠ .null))) := by
  have hstep : ∀ (acc : List (String × JSValue)) (kv : String × JSValue),
      (if (schema.required.getD []).contains kv.1 then jsInsert acc kv.1 kv.2
       else if kv.2 != .undef && kv.2 != .str "" && kv.2 != .null then
         jsInsert acc kv.1 kv.2
       else acc) =
      (if (schema.required.getD []).contains kv.1 ||
          (kv.2 != .undef && kv.2 != .str "" && kv.2 != .null) then
        jsInsert acc kv.1 kv.2
       else acc) := by
    intro acc kv
    by_cases h1 : (schema.required.getD []).contains kv.1 <;>
      by_cases h2 : (kv.2 != .undef && kv.2 != .str "" && kv.2 != .null) <;>
        simp [h1, h2]
  have hf : cleanParams params schema =
      params.filter (fun kv =>
        (schema.required.getD []).contains kv.1 ||
          (kv.2 != .undef && kv.2 != .str "" && kv.2 != .null)) := by
    show params.foldl
        (fun cleaned kv =>
          if (schema.required.getD []).contains kv.1 then jsInsert cleaned kv.1 kv.2
          else if kv.2 != .undef && kv.2 != .str "" && kv.2 != .null then
            jsInsert cleaned kv.1 kv.2
          else cleaned)
        [] = _
    rw [List.foldl_ext _ _ _ (fun a b _ => hstep a b)]
    rw [foldl_jsInsert_filter
      (fun kv => (schema.required.getD []).contains kv.1 ||
        (kv.2 != .undef && kv.2 != .str "" && kv.2 != .null)) params []
      (by simpa using hkeys)]
    simp
  rw [hf, List.mem_filter]
  simp [bne_iff_ne, and_assoc]

/-- C9 witness: a concrete parameter map with a required empty-string
value (kept), applied through the theorem. -/
theorem clean_params_correct_witness :
    ("req", JSValue.str "") ∈
      cleanParams [("req", JSValue.str ""), ("opt", JSValue.null)]
        { required := some ["req"] } :=
  (clean_params_correct [("req", JSValue.str ""), ("opt", JSValue.null)]
      { required := some ["req"] } (by decide) "req" (JSValue.str "")).mpr
    (by decide)

end Inspector

namespace Inspector

/-- A poll reply that keeps the loop going: a status snapshot whose
status is not terminal. -/
def nonTerminalPoll (r : PollReply) : Prop :=
  ∃ s m, r = .status s m ∧ isTerminalStatus s = false

/-- A non-terminal status snapshot at the head of the reply list adds
one poll and defers to the rest of the loop. -/
theorem pollTaskLoop_cons_nonterminal (s : String) (m : Option String)
    (h : isTerminalStatus s = false) (rest : List PollReply) (fetch : FetchReply) :
    pollTaskLoop (.status s m :: rest) fetch =
      { final := (pollTaskLoop rest fetch).final,
        resultFetched := (pollTaskLoop rest fetch).resultFetched,
        polls := (pollTaskLoop rest fetch).polls + 1 } := by
  simp [pollTaskLoop, h]

/-- C3: after any run of non-terminal polls, a failing `tasks/get`
request — or a failing follow-up `tasks/result` request after a
`completed` poll — stops the loop right there (later replies are never
consumed), and the tool result is the error-shaped payload carrying the
error message with `isError` set; the loop returns instead of
throwing. -/
theorem task_poll_error_terminates (pre post : List PollReply) (e : String)
    (fetch : FetchReply) (m : Option String)
    (hpre : ∀ r ∈ pre, nonTerminalPoll r) :
    pollTaskLoop (pre ++ .failure e :: post) fetch =
      { final := some (pollErrorResult e), resultFetched := false,
        polls := pre.length + 1 } ∧
    pollTaskLoop (pre ++ .status "completed" m :: post) (.failure e) =
      { final := some (pollErrorResult e), resultFetched := true,
        polls := pre.length + 1 } ∧
    (pollErrorResult e).isError = true ∧
    (pollErrorResult e).content = ["Error polling task status: " ++ e] := by
  revert hpre
  induction pre with
  | nil =>
    intro _
    refine ⟨by simp [pollTaskLoop], by simp [pollTaskLoop, isTerminalStatus], rfl, rfl⟩
  | cons r rest ih =>
    intro hpre
    obtain ⟨s, mm, hr, hterm⟩ := hpre r (List.mem_cons_self r rest)
    subst hr
    have ihh := ih (fun x hx => hpre x (by simp [hx]))
    refine ⟨?_, ?_, rfl, rfl⟩
    · rw [List.cons_append, pollTaskLoop_cons_nonterminal s mm hterm, ihh.1]
      simp
    · rw [List.cons_append, pollTaskLoop_cons_nonterminal s mm hterm, ihh.2.1]
      simp

/-- C3 witness: one `working` poll followed by a failing `tasks/get`. -/
theorem task_poll_error_terminates_witness :
    pollTaskLoop [PollReply.status "working" none, PollReply.failure "boom"]
        (FetchReply.fetched { content := ["r"] }) =
      { final := some (pollErrorResult "boom"), resultFetched := false,
        polls := 2 } :=
  (task_poll_error_terminates [PollReply.status "working" none] [] "boom"
      (FetchReply.fetched { content := ["r"] }) none
      (by
        intro r hr
        rw [List.mem_singleton] at hr
        exact hr ▸ ⟨"working", none, rfl, by decide⟩)).1

/-- C4: after any run of non-terminal polls, a `completed` status
triggers the `tasks/result` fetch whose payload becomes the tool
result, while `failed` and `cancelled` stop without issuing
`tasks/result` and synthesize an error-marked result carrying the
status message; in every case the loop stops right there (later
replies are never consumed). -/
theorem task_poll_terminal_dispatch (pre post : List PollReply)
    (fetch : FetchReply) (res : ToolResult) (m : Option String)
    (hpre : ∀ r ∈ pre, nonTerminalPoll r) :
    pollTaskLoop (pre ++ .status "completed" m :: post) (.fetched res) =
      { final := some res, resultFetched := true, polls := pre.length + 1 } ∧
    pollTaskLoop (pre ++ .status "failed" m :: post) fetch =
      { final := some { content := [taskTerminalMessage "failed" m], isError := true },
        resultFetched := false, polls := pre.length + 1 } ∧
    pollTaskLoop (pre ++ .status "cancelled" m :: post) fetch =
      { final := some { content := [taskTerminalMessage "cancelled" m], isError := true },
        resultFetched := false, polls := pre.length + 1 } := by
  revert hpre
  induction pre with
  | nil =>
    intro _
    refine ⟨by simp [pollTaskLoop, isTerminalStatus],
      by simp [pollTaskLoop, isTerminalStatus],
      by simp [pollTaskLoop, isTerminalStatus]⟩
  | cons r rest ih =>
    intro hpre
    obtain ⟨s, mm, hr, hterm⟩ := hpre r (List.mem_cons_self r rest)
    subst hr
    have ihh := ih (fun x hx => hpre x (by simp [hx]))
    refine ⟨?_, ?_, ?_⟩
    · rw [List.cons_append, pollTaskLoop_cons_nonterminal s mm hterm, ihh.1]
      simp
    · rw [List.cons_append, pollTaskLoop_cons_nonterminal s mm hterm, ihh.2.1]
      simp
    · rw [List.cons_append, pollTaskLoop_cons_nonterminal s mm hterm, ihh.2.2]
      simp

/-- C4 witness: one `working` poll followed by a `completed` status and
a successful `tasks/result` fetch. -/
theorem task_poll_terminal_dispatch_witness :
    pollTaskLoop [PollReply.status "working" none, PollReply.status "completed" none]
        (FetchReply.fetched { content := ["payload"] }) =
      { final := some { content := ["payload"] }, resultFetched := true,
        polls := 2 } :=
  (task_poll_terminal_dispatch [PollReply.status "working" none] []
      (FetchReply.fetched { content := ["payload"] }) { content := ["payload"] } none
      (by
        intro r hr
        rw [List.mem_singleton] at hr
        exact hr ▸ ⟨"working", none, rfl, by decide⟩)).1

/-- C5: a `tools/call` response without a task reference is delivered
directly as the tool result with no task registration and no polls,
even when the call was issued with `runAsTask`; the poll loop is
entered exactly when `runAsTask` is set and the response carries a task
reference. -/
theorem call_tool_direct_short_circuit (runAsTask : Bool) (response : CallResponse)
    (replies : List PollReply) (fetch : FetchReply) :
    (response.task = none →
      callToolDispatch runAsTask response replies fetch =
        { final := some response.direct, enteredPollLoop := false,
          resultFetched := false, polls := 0 }) ∧
    ((callToolDispatch runAsTask response replies fetch).enteredPollLoop = true ↔
      (runAsTask = true ∧ isTaskResult response = true)) := by
  constructor
  · intro h
    simp [callToolDispatch, isTaskResult, h]
  · by_cases hr : (runAsTask && isTaskResult response) = true
    · rw [callToolDispatch, if_pos hr]
      simpa using hr
    · rw [callToolDispatch, if_neg hr]
      simpa using hr

/-- C5 witness: a task-flagged call whose response carries no task
reference short-circuits to the direct result. -/
theorem call_tool_direct_short_circuit_witness :
    callToolDispatch true { task := none, direct := { content := ["ok"] } } []
        (FetchReply.fetched { content := ["r"] }) =
      { final := some { content := ["ok"] }, enteredPollLoop := false,
        resultFetched := false, polls := 0 } :=
  (call_tool_direct_short_circuit true { task := none, direct := { content := ["ok"] } }
      [] (FetchReply.fetched { content := ["r"] })).1 rfl

end Inspector

namespace Inspector

/-- C1 amended witness: the merge evaluated at progress token 7. -/
theorem metadata_merge_precedence_witness :
    mergedMetadata [("a", .num 1), ("b", .num 2)] [("b", .num 3)] 7 =
      [("a", .num 1), ("b", .num 3), ("progressToken", .num 7)] :=
  metadata_merge_precedence 7

/-- C8 witness: the resume loop evaluated with fuel 3. -/
theorem oauth_resume_completes_witness :
    resumeLoopFinal 3 resumeSeedStep = .complete :=
  (oauth_resume_completes 2).1

end Inspector
